import Mathlib

/-!
Verification of the time-boundary scheduling core of `auto-react-theme`.

The definitions below are a shallow embedding of `src/timeUtils.ts`,
`src/storage.ts` and the configuration-merging prologue of
`src/AutoThemeProvider.tsx`.  The TypeScript functions read the wall clock
through `getCurrentMinutes()`; here the current instant is passed explicitly
as the `currentMinutes` argument, exactly as the design notes of the spec demand
("the host clock should be abstracted as an injected time-source").
Machine numbers are modelled as `Nat`/`Int` (the JS values involved are small
integers, far from any floating-point rounding).
-/

namespace AutoTheme

/-- Embedding of `isLightTime` (src/timeUtils.ts, lines 53-66), with the
minute values already parsed and the current instant injected.
Mirrors: `if (light < dark) return cur >= light && cur < dark;
return cur >= light || cur < dark;`. -/
def isLightTime (lightStartMinutes darkStartMinutes currentMinutes : ℕ) : Bool :=
  if lightStartMinutes < darkStartMinutes then
    decide (lightStartMinutes ≤ currentMinutes) && decide (currentMinutes < darkStartMinutes)
  else
    decide (lightStartMinutes ≤ currentMinutes) || decide (currentMinutes < darkStartMinutes)

/-- Embedding of `getNextBoundary` (src/timeUtils.ts, lines 84-109). -/
def getNextBoundary (lightStartMinutes darkStartMinutes currentMinutes : ℕ) : ℕ :=
  if lightStartMinutes < darkStartMinutes then
    if currentMinutes < lightStartMinutes then
      lightStartMinutes
    else if currentMinutes < darkStartMinutes then
      darkStartMinutes
    else
      lightStartMinutes + 1440
  else
    if lightStartMinutes ≤ currentMinutes ∨ currentMinutes < darkStartMinutes then
      darkStartMinutes
    else
      lightStartMinutes

/-- Embedding of `getMsUntilNextBoundary` (src/timeUtils.ts, lines 117-126).
The subtraction can be negative in JS, so the delta lives in `ℤ`. -/
def getMsUntilNextBoundary (lightStartMinutes darkStartMinutes currentMinutes : ℕ) : ℤ :=
  let nextBoundary : ℤ := getNextBoundary lightStartMinutes darkStartMinutes currentMinutes
  let minutesUntilBoundary : ℤ := nextBoundary - (currentMinutes : ℤ)
  let adjustedMinutes : ℤ :=
    if minutesUntilBoundary < 0 then minutesUntilBoundary + 1440 else minutesUntilBoundary
  adjustedMinutes * 60 * 1000

/-- Claim C3: `isLightTime` realises exactly the half-open interval rule of the spec:
for `L < D` light holds iff `L ≤ C ∧ C < D`; for `L ≥ D` (wrapping,
including the degenerate `L = D`) light holds iff `L ≤ C ∨ C < D`; and for
`L ≠ D` the boundary minute belongs to the interval it starts (light at `L`,
dark at `D`), never the one it ends. -/
theorem isLightTime_halfOpen_spec (L D C : ℕ) :
    (L < D → (isLightTime L D C = true ↔ L ≤ C ∧ C < D)) ∧
    (D ≤ L → (isLightTime L D C = true ↔ L ≤ C ∨ C < D)) ∧
    (L ≠ D → isLightTime L D L = true ∧ isLightTime L D D = false) := by
  refine ⟨?_, ?_, ?_⟩
  · intro hLD
    simp [isLightTime, hLD]
  · intro hDL
    have : ¬ L < D := by omega
    simp [isLightTime, this]
  · intro hne
    by_cases hLD : L < D
    · constructor
      · simp [isLightTime, hLD]
      · simp [isLightTime, hLD]
    · have hDL : D < L := by omega
      constructor
      · simp [isLightTime, hLD]
      · simp [isLightTime, hLD]
        omega

/-- Claim C3 witness: concrete instance, non-wrapping pair 420/1320 at minute 500. -/
theorem isLightTime_halfOpen_spec_witness :
    (isLightTime 420 1320 500 = true ↔ 420 ≤ 500 ∧ 500 < 1320) ∧
    (isLightTime 420 1320 420 = true ∧ isLightTime 420 1320 1320 = false) :=
  ⟨(isLightTime_halfOpen_spec 420 1320 500).1 (by decide),
   (isLightTime_halfOpen_spec 420 1320 500).2.2 (by decide)⟩

/-- Counterexample to claim C2: with `lightStart = darkStart` (both 09:00 = 540
minutes) the code is always LIGHT, not always dark: at minute 0 (and every
other minute) `isLightTime` returns `true`, refuting "returns false for
every currentMinutes". -/
theorem isLightTime_equal_boundaries_not_dark :
    isLightTime 540 540 0 = true := by decide

/-- Claim C2 as amended: in the degenerate case `lightStart = darkStart` the
wrap branch of the code tests `C ≥ L ∨ C < L`, which is a tautology, so `isLightTime`
returns `true` (state Light) for every current minute: the configuration is
"always light", not "always dark". -/
theorem isLightTime_equal_boundaries_always_light (L C : ℕ) :
    isLightTime L L C = true := by
  simp [isLightTime]
  omega

/-- Counterexample to claim C4: wrapping pair lightStart 22:00 (1320), darkStart
07:00 (420), current minute 1400 (≥ L, currently light).  The claim says
the next boundary is `D + 1440 = 1860`; the code returns `D = 420` (the
`+ 1440` adjustment happens only later, in `getMsUntilNextBoundary`). -/
theorem getNextBoundary_wrap_no_plus1440 :
    getNextBoundary 1320 420 1400 = 420 ∧ getNextBoundary 1320 420 1400 ≠ 1860 := by
  constructor <;> decide

/-- Claim C4 as amended: in the wrapping case (`D ≤ L`), when the current state is
light (`L ≤ C ∨ C < D`) `getNextBoundary` returns `D` — both when `C < D`
and when `C ≥ L`, never `D + 1440` — and when the current state is dark
(`D ≤ C < L`) it returns `L`. -/
theorem getNextBoundary_wrap_cases (L D C : ℕ) (hDL : D ≤ L) :
    (L ≤ C ∨ C < D → getNextBoundary L D C = D) ∧
    (D ≤ C → C < L → getNextBoundary L D C = L) := by
  constructor
  · intro hlight
    have h1 : ¬ L < D := by omega
    simp [getNextBoundary, h1, hlight]
  · intro hDC hCL
    have h1 : ¬ L < D := by omega
    have h2 : ¬ (L ≤ C ∨ C < D) := by omega
    simp [getNextBoundary, h1, h2]

/-- Claim C4 amended witness: the wrapping pair 1320/420; at minute 1400 (light)
the next boundary is 420, at minute 800 (dark) it is 1320. -/
theorem getNextBoundary_wrap_cases_witness :
    getNextBoundary 1320 420 1400 = 420 ∧ getNextBoundary 1320 420 800 = 1320 :=
  ⟨(getNextBoundary_wrap_cases 1320 420 1400 (by decide)).1 (by decide),
   (getNextBoundary_wrap_cases 1320 420 800 (by decide)).2 (by decide) (by decide)⟩

/-- Propositional characterisation of `isLightTime`, shared by the proofs
below. -/
lemma isLightTime_iff (L D C : ℕ) :
    isLightTime L D C = true ↔ (L < D ∧ L ≤ C ∧ C < D) ∨ (D ≤ L ∧ (L ≤ C ∨ C < D)) := by
  by_cases h : L < D
  · simp [isLightTime, h]
  · simp [isLightTime, h]
    omega

/-- Counterexample to claim C1: with `lightStart = darkStart = 00:00` (minute 0) and
`currentMinutes = 0`, the computed next boundary is 0, but `isLightTime` is
`true` both at `(0 - 1) mod 1440 = 1439` and at `0`: the two states are
EQUAL, so the computed boundary is not a state-change instant there. -/
theorem getNextBoundary_not_state_change_when_equal :
    isLightTime 0 0 ((getNextBoundary 0 0 0 + 1439) % 1440) =
      isLightTime 0 0 (getNextBoundary 0 0 0 % 1440) := by decide

/-- Claim C1 as amended: for all in-range minute values with `lightStart ≠ darkStart`,
the state at `nextBoundary - 1 (mod 1440)` differs from the state at
`nextBoundary (mod 1440)`: the computed next boundary is an actual
state-change instant.  (The degenerate `lightStart = darkStart` case has no
state change at all, so it must be excluded.) -/
theorem getNextBoundary_is_state_change (L D C : ℕ)
    (hL : L < 1440) (hD : D < 1440) (hC : C < 1440) (hne : L ≠ D) :
    isLightTime L D ((getNextBoundary L D C + 1439) % 1440) ≠
      isLightTime L D (getNextBoundary L D C % 1440) := by
  rw [Ne, Bool.eq_iff_iff, isLightTime_iff, isLightTime_iff]
  by_cases hLD : L < D
  · by_cases h1 : C < L
    · have hn : getNextBoundary L D C = L := by simp [getNextBoundary, hLD, h1]
      rw [hn]; omega
    · by_cases h2 : C < D
      · have hn : getNextBoundary L D C = D := by simp [getNextBoundary, hLD, h1, h2]
        rw [hn]; omega
      · have hn : getNextBoundary L D C = L + 1440 := by
          simp [getNextBoundary, hLD, h1, h2]
        rw [hn]; omega
  · by_cases hw : L ≤ C ∨ C < D
    · have hn : getNextBoundary L D C = D := by simp [getNextBoundary, hLD, hw]
      rw [hn]; omega
    · have hn : getNextBoundary L D C = L := by simp [getNextBoundary, hLD, hw]
      rw [hn]; omega

/-- Claim C1 amended witness: pair 07:00/22:00 at minute 500; the boundary 1320
separates light (1319) from dark (1320). -/
theorem getNextBoundary_is_state_change_witness :
    isLightTime 420 1320 ((getNextBoundary 420 1320 500 + 1439) % 1440) ≠
      isLightTime 420 1320 (getNextBoundary 420 1320 500 % 1440) :=
  getNextBoundary_is_state_change 420 1320 500 (by decide) (by decide) (by decide)
    (by decide)

/-- Counterexample to claim C5: in the degenerate configuration
`lightStart = darkStart = 00:00` at `currentMinutes = 0` the returned delay
is 0 ms, refuting "always strictly positive". -/
theorem getMsUntilNextBoundary_zero_at_degenerate :
    getMsUntilNextBoundary 0 0 0 = 0 := by decide

/-- Claim C5 as amended: for in-range minute values, `getMsUntilNextBoundary` equals
the raw minute delta to `getNextBoundary`, with 1440 added first when that
delta is negative, times 60000; the result is always nonnegative, never
exceeds 1440 × 60000 ms, and is strictly positive except in the single
degenerate situation `lightStart = darkStart = currentMinutes`, where it
is exactly 0. -/
theorem getMsUntilNextBoundary_bounds (L D C : ℕ)
    (hL : L < 1440) (hD : D < 1440) (hC : C < 1440) :
    (getMsUntilNextBoundary L D C =
      (if ((getNextBoundary L D C : ℤ) - (C : ℤ)) < 0 then
        ((getNextBoundary L D C : ℤ) - (C : ℤ)) + 1440
      else ((getNextBoundary L D C : ℤ) - (C : ℤ))) * 60000) ∧
    0 ≤ getMsUntilNextBoundary L D C ∧
    getMsUntilNextBoundary L D C ≤ 1440 * 60000 ∧
    (¬ (L = D ∧ C = L) → 0 < getMsUntilNextBoundary L D C) ∧
    (L = D → C = L → getMsUntilNextBoundary L D C = 0) := by
  by_cases hLD : L < D
  · by_cases h1 : C < L
    · have hn : getNextBoundary L D C = L := by simp [getNextBoundary, hLD, h1]
      simp only [getMsUntilNextBoundary, hn]
      refine ⟨?_, ?_, ?_, fun h => ?_, fun hEq hCL => ?_⟩ <;> split_ifs <;> omega
    · by_cases h2 : C < D
      · have hn : getNextBoundary L D C = D := by simp [getNextBoundary, hLD, h1, h2]
        simp only [getMsUntilNextBoundary, hn]
        refine ⟨?_, ?_, ?_, fun h => ?_, fun hEq hCL => ?_⟩ <;> split_ifs <;> omega
      · have hn : getNextBoundary L D C = L + 1440 := by
          simp [getNextBoundary, hLD, h1, h2]
        simp only [getMsUntilNextBoundary, hn]
        refine ⟨?_, ?_, ?_, fun h => ?_, fun hEq hCL => ?_⟩ <;> split_ifs <;> omega
  · by_cases hw : L ≤ C ∨ C < D
    · have hn : getNextBoundary L D C = D := by simp [getNextBoundary, hLD, hw]
      simp only [getMsUntilNextBoundary, hn]
      refine ⟨?_, ?_, ?_, fun h => ?_, fun hEq hCL => ?_⟩ <;> split_ifs <;> omega
    · have hn : getNextBoundary L D C = L := by simp [getNextBoundary, hLD, hw]
      simp only [getMsUntilNextBoundary, hn]
      refine ⟨?_, ?_, ?_, fun h => ?_, fun hEq hCL => ?_⟩ <;> split_ifs <;> omega

/-- Claim C5 amended witness: spec example 07:00/22:00 at minute 500 — the delay
is 820 minutes = 49,200,000 ms, within the stated bounds. -/
theorem getMsUntilNextBoundary_bounds_witness :
    0 ≤ getMsUntilNextBoundary 420 1320 500 ∧
    0 < getMsUntilNextBoundary 420 1320 500 :=
  ⟨(getMsUntilNextBoundary_bounds 420 1320 500 (by decide) (by decide)
      (by decide)).2.1,
   (getMsUntilNextBoundary_bounds 420 1320 500 (by decide) (by decide)
      (by decide)).2.2.2.1 (by decide)⟩

/-! ### Parsing layer: `timeToMinutes` (src/timeUtils.ts, lines 13-35)

Strings are handled through their character lists.  `jsTrim` models
`String.prototype.trim`, `splitOnChar` models `split(":")` and
`parseIntDec` models `parseInt(s, 10)`: skip leading whitespace, accept an
optional sign, read the longest decimal-digit prefix (ignoring any trailing
characters), and produce NaN — modelled as `none` — when no digit is found.
-/

/-- Whitespace test used by trimming and by `parseIntDec`. -/
def isWs (c : Char) : Bool := c.isWhitespace

/-- Model of `time.trim()`: remove leading and trailing whitespace. -/
def jsTrim (l : List Char) : List Char :=
  ((l.dropWhile isWs).reverse.dropWhile isWs).reverse

/-- Model of `String.prototype.split` with a single-character separator:
`splitOnChar sep l` returns the (always nonempty) list of fields. -/
def splitOnChar (sep : Char) : List Char → List (List Char)
  | [] => [[]]
  | c :: rest =>
    if c = sep then
      [] :: splitOnChar sep rest
    else
      match splitOnChar sep rest with
      | [] => [[c]]
      | r :: rs => (c :: r) :: rs

/-- Value of a decimal digit string (most significant first). -/
def digitsVal (l : List Char) : ℕ :=
  l.foldl (fun acc c => 10 * acc + (c.toNat - 48)) 0

/-- Longest decimal-digit prefix, `none` when there is none. -/
def parseDigits (l : List Char) : Option ℕ :=
  let ds := l.takeWhile Char.isDigit
  if ds.isEmpty then none else some (digitsVal ds)

/-- Model of `parseInt(s, 10)`: `none` is NaN. -/
def parseIntDec (l : List Char) : Option ℤ :=
  match l.dropWhile isWs with
  | [] => none
  | c :: rest =>
    if c = '+' then (parseDigits rest).map (fun n => (n : ℤ))
    else if c = '-' then (parseDigits rest).map (fun n => -(n : ℤ))
    else (parseDigits (c :: rest)).map (fun n => (n : ℤ))

/-- The two failure kinds of the spec taxonomy: `invalidFormat` for the two
`throw`s on separator count and NaN fields, `outOfRange` for the two range
`throw`s. -/
inductive TimeError where
  | invalidFormat
  | outOfRange
deriving DecidableEq, Repr

/-- Embedding of `timeToMinutes` (src/timeUtils.ts, lines 13-35).  The JS
function throws; here the thrown kind is the `Except.error` value. -/
def timeToMinutes (time : String) : Except TimeError ℤ :=
  match splitOnChar ':' (jsTrim time.data) with
  | [p0, p1] =>
    match parseIntDec p0, parseIntDec p1 with
    | some hours, some minutes =>
      if hours < 0 ∨ 23 < hours then .error .outOfRange
      else if minutes < 0 ∨ 59 < minutes then .error .outOfRange
      else .ok (hours * 60 + minutes)
    | _, _ => .error .invalidFormat
  | _ => .error .invalidFormat

/-- Number of separator occurrences in the input. -/
def colonCount (l : List Char) : ℕ := l.count ':'

lemma splitOnChar_ne_nil (sep : Char) (l : List Char) : splitOnChar sep l ≠ [] := by
  induction l with
  | nil => simp [splitOnChar]
  | cons c rest ih =>
    by_cases h : c = sep
    · simp [splitOnChar, h]
    · simp only [splitOnChar, h, if_false]
      cases hs : splitOnChar sep rest with
      | nil => simp
      | cons r rs => simp

lemma length_splitOnChar (sep : Char) (l : List Char) :
    (splitOnChar sep l).length = l.count sep + 1 := by
  induction l with
  | nil => simp [splitOnChar]
  | cons c rest ih =>
    by_cases h : c = sep
    · simp [splitOnChar, h, List.count_cons, ih]
    · simp only [splitOnChar, h, if_false]
      cases hs : splitOnChar sep rest with
      | nil => exact absurd hs (splitOnChar_ne_nil sep rest)
      | cons r rs =>
        rw [hs] at ih
        simp only [List.length_cons] at ih ⊢
        simp [List.count_cons, h, ih]

lemma count_dropWhile_of_not (p : Char → Bool) (c : Char) (hc : p c = false)
    (l : List Char) : (l.dropWhile p).count c = l.count c := by
  induction l with
  | nil => simp
  | cons a t ih =>
    by_cases h : p a
    · have hac : a ≠ c := by intro h'; rw [h'] at h; rw [h] at hc; cases hc
      simp [List.dropWhile_cons, h, List.count_cons, hac, ih]
    · simp [List.dropWhile_cons, h]

lemma count_jsTrim (c : Char) (hc : isWs c = false) (l : List Char) :
    (jsTrim l).count c = l.count c := by
  unfold jsTrim
  rw [List.count_reverse, count_dropWhile_of_not _ _ hc, List.count_reverse,
    count_dropWhile_of_not _ _ hc]

lemma digit_not_ws (c : Char) (h : c.isDigit = true) : isWs c = false := by
  cases hws : isWs c with
  | false => rfl
  | true =>
    exfalso
    simp only [isWs, Char.isWhitespace, Bool.or_eq_true, decide_eq_true_eq] at hws
    rcases hws with ((rfl | rfl) | rfl) | rfl <;> exact absurd h (by decide)

lemma digit_ne_signs (c : Char) (h : c.isDigit = true) :
    c ≠ ':' ∧ c ≠ '+' ∧ c ≠ '-' := by
  refine ⟨?_, ?_, ?_⟩ <;> rintro rfl <;> exact absurd h (by decide)

lemma dropWhile_append_cons (p : Char → Bool) (pre : List Char) (x : Char)
    (r : List Char) (hpre : ∀ c ∈ pre, p c = true) (hx : p x = false) :
    (pre ++ x :: r).dropWhile p = x :: r := by
  induction pre with
  | nil => simp [List.dropWhile_cons, hx]
  | cons a t ih =>
    have ha : p a = true := hpre a (by simp)
    simp only [List.cons_append, List.dropWhile_cons, ha, if_true]
    exact ih (fun c hc => hpre c (by simp [hc]))

lemma jsTrim_wrap (pre post mid : List Char)
    (hpre : ∀ c ∈ pre, isWs c = true) (hpost : ∀ c ∈ post, isWs c = true)
    (hmid1 : ∃ x r, mid = x :: r ∧ isWs x = false)
    (hmid2 : ∃ x r, mid.reverse = x :: r ∧ isWs x = false) :
    jsTrim (pre ++ mid ++ post) = mid := by
  obtain ⟨x, r, hxr, hx⟩ := hmid1
  obtain ⟨y, q, hyq, hy⟩ := hmid2
  unfold jsTrim
  have h1 : (pre ++ mid ++ post).dropWhile isWs = mid ++ post := by
    rw [hxr, List.append_assoc, List.cons_append,
      dropWhile_append_cons isWs pre x (r ++ post) hpre hx]
  rw [h1]
  have hpost' : ∀ c ∈ post.reverse, isWs c = true :=
    fun c hc => hpost c (List.mem_reverse.mp hc)
  have h2 : (mid ++ post).reverse.dropWhile isWs = y :: q := by
    rw [List.reverse_append, hyq]
    exact dropWhile_append_cons isWs post.reverse y q hpost' hy
  rw [h2, ← hyq, List.reverse_reverse]

lemma splitOnChar_of_not_mem (sep : Char) (l : List Char) (h : sep ∉ l) :
    splitOnChar sep l = [l] := by
  induction l with
  | nil => rfl
  | cons c t ih =>
    have hc : c ≠ sep := fun he => h (by simp [he])
    have ht : sep ∉ t := fun hm => h (by simp [hm])
    simp [splitOnChar, hc, ih ht]

lemma splitOnChar_append_sep (sep : Char) (d r : List Char) (h : sep ∉ d) :
    splitOnChar sep (d ++ sep :: r) = d :: splitOnChar sep r := by
  induction d with
  | nil => simp [splitOnChar]
  | cons c t ih =>
    have hc : c ≠ sep := fun he => h (by simp [he])
    have ht : sep ∉ t := fun hm => h (by simp [hm])
    simp [splitOnChar, hc, ih ht]

lemma parseIntDec_digits (d : List Char) (hne : d ≠ [])
    (hd : ∀ c ∈ d, c.isDigit = true) :
    parseIntDec d = some ((digitsVal d : ℤ)) := by
  rcases d with _ | ⟨c0, t⟩
  · exact absurd rfl hne
  have hc0 : c0.isDigit = true := hd c0 (by simp)
  have hws : isWs c0 = false := digit_not_ws c0 hc0
  have hdrop : (c0 :: t).dropWhile isWs = c0 :: t := by
    simp [List.dropWhile_cons, hws]
  have htake : (c0 :: t).takeWhile Char.isDigit = c0 :: t :=
    List.takeWhile_eq_self_iff.mpr hd
  unfold parseIntDec
  rw [hdrop]
  simp [(digit_ne_signs c0 hc0).2.1, (digit_ne_signs c0 hc0).2.2, parseDigits,
    htake]

/-- Counterexample to claim C6: in `"12:5x"` the minutes field `"5x"` is not
an integer (it has trailing non-digit characters), so the claim demands an
`InvalidFormat` failure; but `parseInt` reads the digit prefix `5` and
ignores the trailing `x`, so the code succeeds with 725 minutes. -/
theorem timeToMinutes_trailing_garbage_ok :
    timeToMinutes "12:5x" = Except.ok 725 := by rfl

/-- Claim C6 as amended: `timeToMinutes` fails with `InvalidFormat` when the
separator count is not exactly one, or when `parseInt` of either field is
NaN (no decimal-digit prefix after optional whitespace and sign — but a
field with a digit prefix followed by trailing garbage parses fine); it
fails with `OutOfRange` when the parsed hours are outside [0,23] or the
parsed minutes outside [0,59]; on every other input it succeeds. -/
theorem timeToMinutes_error_classification (s : String) :
    (colonCount s.data ≠ 1 → timeToMinutes s = .error .invalidFormat) ∧
    (∀ p0 p1, splitOnChar ':' (jsTrim s.data) = [p0, p1] →
      parseIntDec p0 = none ∨ parseIntDec p1 = none →
      timeToMinutes s = .error .invalidFormat) ∧
    (∀ p0 p1 h m, splitOnChar ':' (jsTrim s.data) = [p0, p1] →
      parseIntDec p0 = some h → parseIntDec p1 = some m →
      h < 0 ∨ 23 < h ∨ m < 0 ∨ 59 < m →
      timeToMinutes s = .error .outOfRange) ∧
    (∀ p0 p1 h m, splitOnChar ':' (jsTrim s.data) = [p0, p1] →
      parseIntDec p0 = some h → parseIntDec p1 = some m →
      0 ≤ h → h ≤ 23 → 0 ≤ m → m ≤ 59 →
      timeToMinutes s = .ok (h * 60 + m)) := by
  refine ⟨?_, ?_, ?_, ?_⟩
  · intro hcc
    have hcc' : (jsTrim s.data).count ':' ≠ 1 := by
      rw [count_jsTrim ':' (by decide) s.data]
      exact hcc
    have hlen := length_splitOnChar ':' (jsTrim s.data)
    unfold timeToMinutes
    cases hsp : splitOnChar ':' (jsTrim s.data) with
    | nil => rfl
    | cons p0 rest0 =>
      cases rest0 with
      | nil => rfl
      | cons p1 rest1 =>
        cases rest1 with
        | nil =>
          rw [hsp] at hlen
          simp only [List.length_cons, List.length_nil] at hlen
          omega
        | cons p2 rest2 => rfl
  · intro p0 p1 hsp hnone
    rcases hnone with h0 | h1
    · cases hy : parseIntDec p1 <;> simp [timeToMinutes, hsp, h0, hy]
    · cases hx : parseIntDec p0 <;> simp [timeToMinutes, hsp, hx, h1]
  · intro p0 p1 h m hsp h0 h1 hrange
    by_cases hh : h < 0 ∨ 23 < h
    · simp [timeToMinutes, hsp, h0, h1, hh]
    · have hm2 : m < 0 ∨ 59 < m := by omega
      simp [timeToMinutes, hsp, h0, h1, hh, hm2]
  · intro p0 p1 h m hsp h0 h1 hh0 hh23 hm0 hm59
    have c1 : ¬ (h < 0 ∨ 23 < h) := by omega
    have c2 : ¬ (m < 0 ∨ 59 < m) := by omega
    simp [timeToMinutes, hsp, h0, h1, c1, c2]

/-- Witness for the amended claim C6: concrete inputs hitting each of the
four branches (extra colon, non-numeric field, hour 24, minute 60, and a
valid time). -/
theorem timeToMinutes_error_classification_witness :
    timeToMinutes "1:2:3" = Except.error TimeError.invalidFormat ∧
    timeToMinutes "aa:10" = Except.error TimeError.invalidFormat ∧
    timeToMinutes "24:00" = Except.error TimeError.outOfRange ∧
    timeToMinutes "07:60" = Except.error TimeError.outOfRange ∧
    timeToMinutes "07:30" = Except.ok (7 * 60 + 30) := by
  refine ⟨?_, ?_, ?_, ?_, ?_⟩
  · exact (timeToMinutes_error_classification "1:2:3").1 (by decide)
  · exact (timeToMinutes_error_classification "aa:10").2.1
      ['a', 'a'] ['1', '0'] (by decide) (Or.inl (by decide))
  · exact (timeToMinutes_error_classification "24:00").2.2.1
      ['2', '4'] ['0', '0'] 24 0 (by decide) (by decide) (by decide) (by omega)
  · exact (timeToMinutes_error_classification "07:60").2.2.1
      ['0', '7'] ['6', '0'] 7 60 (by decide) (by decide) (by decide) (by omega)
  · exact (timeToMinutes_error_classification "07:30").2.2.2
      ['0', '7'] ['3', '0'] 7 30 (by decide) (by decide) (by decide)
      (by omega) (by omega) (by omega) (by omega)

/-- Claim C7: every valid time string — optional whitespace, a nonempty
decimal hours field with value ≤ 23, one colon, a nonempty decimal minutes
field with value ≤ 59, optional whitespace — parses successfully to
`hours * 60 + minutes`, an integer in [0, 1440).  `timeToMinutes` is a pure
function, so the value is the same on every call and there are no side
effects. -/
theorem timeToMinutes_valid_hhmm (pre post d1 d2 : List Char)
    (hd1 : d1 ≠ []) (hd2 : d2 ≠ [])
    (h1 : ∀ c ∈ d1, c.isDigit = true) (h2 : ∀ c ∈ d2, c.isDigit = true)
    (hh : digitsVal d1 ≤ 23) (hm : digitsVal d2 ≤ 59)
    (hpre : ∀ c ∈ pre, isWs c = true) (hpost : ∀ c ∈ post, isWs c = true) :
    timeToMinutes ⟨pre ++ (d1 ++ ':' :: d2) ++ post⟩ =
      Except.ok ((digitsVal d1 : ℤ) * 60 + (digitsVal d2 : ℤ)) ∧
    0 ≤ (digitsVal d1 : ℤ) * 60 + (digitsVal d2 : ℤ) ∧
    (digitsVal d1 : ℤ) * 60 + (digitsVal d2 : ℤ) < 1440 := by
  have hmid1 : ∃ x r, d1 ++ ':' :: d2 = x :: r ∧ isWs x = false := by
    rcases d1 with _ | ⟨c, t⟩
    · exact absurd rfl hd1
    · exact ⟨c, t ++ ':' :: d2, by simp, digit_not_ws c (h1 c (by simp))⟩
  have hmid2 : ∃ x r, (d1 ++ ':' :: d2).reverse = x :: r ∧ isWs x = false := by
    rcases hrev : d2.reverse with _ | ⟨y, q⟩
    · have hnil : d2 = [] := by simpa using congrArg List.reverse hrev
      exact absurd hnil hd2
    · have hy : y ∈ d2 := by
        have : y ∈ d2.reverse := by simp [hrev]
        exact List.mem_reverse.mp this
      refine ⟨y, q ++ ':' :: d1.reverse, ?_, digit_not_ws y (h2 y hy)⟩
      simp [List.reverse_append, hrev]
  have htrim : jsTrim (pre ++ (d1 ++ ':' :: d2) ++ post) = d1 ++ ':' :: d2 :=
    jsTrim_wrap pre post _ hpre hpost hmid1 hmid2
  have hnc1 : ':' ∉ d1 := fun hmem => absurd (h1 ':' hmem) (by decide)
  have hnc2 : ':' ∉ d2 := fun hmem => absurd (h2 ':' hmem) (by decide)
  have hsplit : splitOnChar ':' (d1 ++ ':' :: d2) = [d1, d2] := by
    rw [splitOnChar_append_sep ':' d1 d2 hnc1, splitOnChar_of_not_mem ':' d2 hnc2]
  refine ⟨?_, by omega, by omega⟩
  have c1 : ¬ ((digitsVal d1 : ℤ) < 0 ∨ 23 < (digitsVal d1 : ℤ)) := by omega
  have c2 : ¬ ((digitsVal d2 : ℤ) < 0 ∨ 59 < (digitsVal d2 : ℤ)) := by omega
  simp only [timeToMinutes, htrim, hsplit, parseIntDec_digits d1 hd1 h1,
    parseIntDec_digits d2 hd2 h2]
  rw [if_neg c1, if_neg c2]

/-- Claim C7 witness: `" 07:30 "` (with surrounding whitespace) parses to
7 × 60 + 30 = 450, inside [0, 1440). -/
theorem timeToMinutes_valid_hhmm_witness :
    timeToMinutes ⟨[' '] ++ (['0', '7'] ++ ':' :: ['3', '0']) ++ [' ']⟩ =
      Except.ok ((digitsVal ['0', '7'] : ℤ) * 60 + (digitsVal ['3', '0'] : ℤ)) ∧
    0 ≤ (digitsVal ['0', '7'] : ℤ) * 60 + (digitsVal ['3', '0'] : ℤ) ∧
    (digitsVal ['0', '7'] : ℤ) * 60 + (digitsVal ['3', '0'] : ℤ) < 1440 :=
  timeToMinutes_valid_hhmm [' '] [' '] ['0', '7'] ['3', '0']
    (by decide) (by decide) (by decide) (by decide) (by decide) (by decide)
    (by decide) (by decide)

/-! ### Provider configuration (src/constants.ts, src/AutoThemeProvider.tsx
lines 85-100) -/

/-- Embedding of `DEFAULT_LIGHT_START` (src/constants.ts). -/
def DEFAULT_LIGHT_START : String := "07:00"

/-- Embedding of `DEFAULT_DARK_START` (src/constants.ts). -/
def DEFAULT_DARK_START : String := "22:00"

/-- Embedding of `isValidTimeConfig` (src/timeUtils.ts, lines 134-142):
`true` iff both boundary strings parse without throwing. -/
def isValidTimeConfig (lightStart darkStart : String) : Bool :=
  match timeToMinutes lightStart with
  | .error _ => false
  | .ok _ =>
    match timeToMinutes darkStart with
    | .error _ => false
    | .ok _ => true

/-- The caller-supplied partial configuration: the two boundary fields of
the `config` prop, absent fields modelled as `none`. -/
structure PartialTimeConfig where
  lightStart : Option String
  darkStart : Option String

/-- The object spread of DEFAULT_CONFIG and config restricted to the two
boundary fields (src/AutoThemeProvider.tsx, lines 85-88). -/
def mergedTimeConfig (c : PartialTimeConfig) : String × String :=
  (c.lightStart.getD DEFAULT_LIGHT_START, c.darkStart.getD DEFAULT_DARK_START)

/-- The validation step of `AutoThemeProvider` (src/AutoThemeProvider.tsx,
lines 92-100): when `isValidTimeConfig` rejects the merged pair, both
boundary fields are overwritten with the defaults. -/
def providerTimeConfig (c : PartialTimeConfig) : String × String :=
  let m := mergedTimeConfig c
  if isValidTimeConfig m.1 m.2 then m else (DEFAULT_LIGHT_START, DEFAULT_DARK_START)

/-- Claim C8: whenever the merged configuration fails validation, the
provider substitutes the documented defaults 07:00 / 22:00 instead of
propagating the parse failure, and the configuration actually used always
passes validation (both boundary strings parse). -/
theorem providerTimeConfig_defaults (c : PartialTimeConfig) :
    (isValidTimeConfig (mergedTimeConfig c).1 (mergedTimeConfig c).2 = false →
      providerTimeConfig c = ("07:00", "22:00")) ∧
    isValidTimeConfig (providerTimeConfig c).1 (providerTimeConfig c).2 = true := by
  constructor
  · intro h
    simp [providerTimeConfig, h, DEFAULT_LIGHT_START, DEFAULT_DARK_START]
  · by_cases h : isValidTimeConfig (mergedTimeConfig c).1 (mergedTimeConfig c).2
    · simp [providerTimeConfig, h]
    · simp only [providerTimeConfig, Bool.not_eq_true] at h ⊢
      rw [h]
      rfl

/-- Claim C8 witness: an unparseable `lightStart` of `"bad"` is replaced by
the default pair, which validates. -/
theorem providerTimeConfig_defaults_witness :
    providerTimeConfig ⟨some "bad", some "22:00"⟩ = ("07:00", "22:00") ∧
    isValidTimeConfig (providerTimeConfig ⟨some "bad", some "22:00"⟩).1
      (providerTimeConfig ⟨some "bad", some "22:00"⟩).2 = true :=
  ⟨(providerTimeConfig_defaults ⟨some "bad", some "22:00"⟩).1 (by rfl),
   (providerTimeConfig_defaults ⟨some "bad", some "22:00"⟩).2⟩

/-! ### Persistence shim (src/storage.ts)

The browser store is modelled as an explicit environment: `available` is the
result of the `isStorageAvailable()` probe, and each primitive returns
`none` to model a thrown exception (`some` is a normal return).  The
embedded operations are total Lean functions — the "never throws" part of
the contract — and every exceptional path is mapped to the documented
failure/empty indicator. -/

/-- Model of the `localStorage` backing store as seen by src/storage.ts. -/
structure LocalStorage where
  available : Bool
  getItem : String → Option (Option String)
  setItem : String → String → Option Unit
  removeItem : String → Option Unit

/-- Embedding of `getStoredMode` (src/storage.ts): returns the stored string
when it is exactly one of the three mode literals, otherwise `none`
(JS `null`), also when the store is unavailable or `getItem` throws. -/
def getStoredMode (st : LocalStorage) (storageKey : String) : Option String :=
  if st.available = false then none
  else
    match st.getItem storageKey with
    | none => none
    | some stored =>
      if stored = some "auto" ∨ stored = some "light" ∨ stored = some "dark" then
        stored
      else
        none

/-- Embedding of `storeMode` (src/storage.ts): `false` when the store is
unavailable or `setItem` throws, `true` on success. -/
def storeMode (st : LocalStorage) (mode : String) (storageKey : String) : Bool :=
  if st.available = false then false
  else
    match st.setItem storageKey mode with
    | none => false
    | some _ => true

/-- Embedding of `clearStoredMode` (src/storage.ts). -/
def clearStoredMode (st : LocalStorage) (storageKey : String) : Bool :=
  if st.available = false then false
  else
    match st.removeItem storageKey with
    | none => false
    | some _ => true

/-- Embedding of `getStoredModeWithFallback` (src/storage.ts):
`getStoredMode(storageKey) ?? defaultMode`. -/
def getStoredModeWithFallback (st : LocalStorage) (storageKey defaultMode : String) :
    String :=
  (getStoredMode st storageKey).getD defaultMode

/-- Claim C9: for every key and value, when the backing store is
unavailable or the underlying access throws, `getStoredMode` returns null,
and `storeMode` / `clearStoredMode` return `false` — the operations degrade
to no-ops with a failure/empty indicator (and, being total functions here,
never throw themselves). -/
theorem storage_operations_degrade (st : LocalStorage) (storageKey mode : String) :
    (st.available = false →
      getStoredMode st storageKey = none ∧
      storeMode st mode storageKey = false ∧
      clearStoredMode st storageKey = false) ∧
    (st.getItem storageKey = none → getStoredMode st storageKey = none) ∧
    (st.setItem storageKey mode = none → storeMode st mode storageKey = false) ∧
    (st.removeItem storageKey = none → clearStoredMode st storageKey = false) := by
  refine ⟨fun h => ⟨?_, ?_, ?_⟩, fun h => ?_, fun h => ?_, fun h => ?_⟩
  · simp [getStoredMode, h]
  · simp [storeMode, h]
  · simp [clearStoredMode, h]
  · unfold getStoredMode
    split_ifs with hav
    · rfl
    · rw [h]
  · unfold storeMode
    split_ifs with hav
    · rfl
    · rw [h]
  · unfold clearStoredMode
    split_ifs with hav
    · rfl
    · rw [h]

/-- Claim C9 witness: a store that is unavailable, and an available store
whose every primitive throws. -/
theorem storage_operations_degrade_witness :
    getStoredMode ⟨false, fun _ => some none, fun _ _ => some (), fun _ => some ()⟩
      "auto-theme-mode" = none ∧
    storeMode ⟨true, fun _ => none, fun _ _ => none, fun _ => none⟩
      "dark" "auto-theme-mode" = false ∧
    clearStoredMode ⟨true, fun _ => none, fun _ _ => none, fun _ => none⟩
      "auto-theme-mode" = false :=
  ⟨((storage_operations_degrade
      ⟨false, fun _ => some none, fun _ _ => some (), fun _ => some ()⟩
      "auto-theme-mode" "dark").1 rfl).1,
   (storage_operations_degrade
      ⟨true, fun _ => none, fun _ _ => none, fun _ => none⟩
      "auto-theme-mode" "dark").2.2.1 rfl,
   (storage_operations_degrade
      ⟨true, fun _ => none, fun _ _ => none, fun _ => none⟩
      "auto-theme-mode" "dark").2.2.2 rfl⟩

/-- Claim C10: `getStoredMode` only ever produces null or one of the three
mode literals; any other stored string (corrupted or foreign data under the
same key) yields null; consequently `getStoredModeWithFallback` with a
well-formed default always produces a well-formed mode. -/
theorem getStoredMode_wellformed (st : LocalStorage) (storageKey : String) :
    (getStoredMode st storageKey = none ∨
      getStoredMode st storageKey = some "auto" ∨
      getStoredMode st storageKey = some "light" ∨
      getStoredMode st storageKey = some "dark") ∧
    (∀ s, st.getItem storageKey = some (some s) →
      s ≠ "auto" → s ≠ "light" → s ≠ "dark" →
      getStoredMode st storageKey = none) ∧
    (∀ d, d = "auto" ∨ d = "light" ∨ d = "dark" →
      getStoredModeWithFallback st storageKey d = "auto" ∨
      getStoredModeWithFallback st storageKey d = "light" ∨
      getStoredModeWithFallback st storageKey d = "dark") := by
  have hshape : getStoredMode st storageKey = none ∨
      getStoredMode st storageKey = some "auto" ∨
      getStoredMode st storageKey = some "light" ∨
      getStoredMode st storageKey = some "dark" := by
    unfold getStoredMode
    split_ifs with hav
    · exact Or.inl rfl
    · cases hg : st.getItem storageKey with
      | none => exact Or.inl rfl
      | some stored =>
        by_cases hs : stored = some "auto" ∨ stored = some "light" ∨
            stored = some "dark"
        · rcases hs with h | h | h <;> subst h <;> simp
        · simp [hs]
  refine ⟨hshape, fun s hg h1 h2 h3 => ?_, fun d hd => ?_⟩
  · have hs : ¬ (some s = some "auto" ∨ some s = some "light" ∨
        some s = some "dark") := by
      simp [h1, h2, h3]
    unfold getStoredMode
    split_ifs with hav
    · rfl
    · simp [hg, hs]
      exact ⟨h1, h2, h3⟩
  · unfold getStoredModeWithFallback
    rcases hshape with h | h | h | h <;> rw [h]
    · simpa using hd
    · simp
    · simp
    · simp

/-- Claim C10 witness: a foreign string `"banana"` stored under the key
yields null, and the fallback then produces the well-formed default. -/
theorem getStoredMode_wellformed_witness :
    getStoredMode ⟨true, fun _ => some (some "banana"), fun _ _ => some (),
      fun _ => some ()⟩ "auto-theme-mode" = none ∧
    (getStoredModeWithFallback ⟨true, fun _ => some (some "banana"),
        fun _ _ => some (), fun _ => some ()⟩ "auto-theme-mode" "auto" = "auto" ∨
      getStoredModeWithFallback ⟨true, fun _ => some (some "banana"),
        fun _ _ => some (), fun _ => some ()⟩ "auto-theme-mode" "auto" = "light" ∨
      getStoredModeWithFallback ⟨true, fun _ => some (some "banana"),
        fun _ _ => some (), fun _ => some ()⟩ "auto-theme-mode" "auto" = "dark") :=
  ⟨(getStoredMode_wellformed ⟨true, fun _ => some (some "banana"),
      fun _ _ => some (), fun _ => some ()⟩ "auto-theme-mode").2.1
      "banana" rfl (by decide) (by decide) (by decide),
   (getStoredMode_wellformed ⟨true, fun _ => some (some "banana"),
      fun _ _ => some (), fun _ => some ()⟩ "auto-theme-mode").2.2
      "auto" (Or.inl rfl)⟩

end AutoTheme
